import Mathlib

/-!
Verification of the assert-json-object library (src/src/utils.ts and
src/src/assertJson.ts) against its specification.

The development shallowly embeds the two source files:
* the path resolver `getValueAtPath` (utils.ts), including the bracket
  normalization regex `\[(\d+)\]` → `.$1`, the split on `"."` and the
  optional-chaining fold `reduce((acc, key) => acc?.[key], obj)`;
* the `JsonAssertion` class (assertJson.ts): its constructor, the `not`
  getter, `getErrors`, `handleError`, and every public check method.

Documents follow the spec's data model (§3): a closed tagged union of
null, boolean, number, string, sequence and mapping values.  Numbers are
modelled as integers (no claim depends on float behaviour).  The JS value
`undefined` is modelled as `Option.none`: it is the resolver's Absent
marker and is never stored inside a document, matching the spec's
"resolver-only sentinel".  Property access on primitives (for instance
`"ab"["length"]` via a host prototype) is outside the JSON data model and
yields Absent, as §4.1 prescribes for non-traversable values.

The mutable `errors` array shared between chained views is modelled with
an explicit heap: a list of error lists addressed by index, so that the
aliasing performed by the `not` getter (which passes `this.errors` to the
clone's constructor) is represented faithfully.  A thrown JS exception is
the `COut.thrown` constructor and carries the heap at the moment of the
throw, so mutations performed before a throw persist, as in JS.
-/

/-- A JSON-like document value (spec §3): mappings keep key insertion
order, as JS objects do for string keys. -/
inductive Json where
  | null : Json
  | bool : Bool → Json
  | num : Int → Json
  | str : String → Json
  | arr : List Json → Json
  | obj : List (String × Json) → Json

/-! ## Path resolver (src/src/utils.ts) -/

/-- Global regex replacement `path.replace(/\[(\d+)\]/g, ".$1")` over the
characters of the path.  The second argument is `none` while scanning
normally and `some ds` after an unmatched `[` followed by the digits `ds`
read so far; a full match `[` digits `]` is rewritten to `.` digits, and a
failed match emits the consumed characters literally and resumes the scan
at the character that broke the match (digits cannot start a match, so
this agrees with the regex engine's leftmost-match scan). -/
def bracketLoop : List Char → Option (List Char) → List Char
  | [], none => []
  | [], some ds => '[' :: ds
  | c :: rest, none =>
      if c = '[' then bracketLoop rest (some [])
      else c :: bracketLoop rest none
  | c :: rest, some ds =>
      if c.isDigit then bracketLoop rest (some (ds ++ [c]))
      else if c = ']' && !ds.isEmpty then '.' :: ds ++ bracketLoop rest none
      else '[' :: ds ++
        (if c = '[' then bracketLoop rest (some [])
         else c :: bracketLoop rest none)

/-- `String.prototype.split(".")` with a plain (non-regex) separator:
splits on every occurrence of `.`; an empty string yields `[""]`. -/
def splitDotAux : List Char → List Char → List String
  | [], acc => [String.mk acc.reverse]
  | c :: rest, acc =>
      if c = '.' then String.mk acc.reverse :: splitDotAux rest []
      else splitDotAux rest (c :: acc)

/-- First match in an association list, as JS property lookup on an
object literal (keys are unique in a JS object; insertion order kept). -/
def jsonLookup : List (String × Json) → String → Option Json
  | [], _ => none
  | (k, v) :: rest, key => if k = key then some v else jsonLookup rest key

/-- A string is a canonical JS array index: a nonempty digit string with
no leading zero (except `"0"` itself).  JS `arr["01"]` is `undefined`
even when `arr[1]` exists, because `"01"` is not a canonical index key. -/
def isCanonicalIndex : List Char → Bool
  | [] => false
  | ['0'] => true
  | c :: rest => decide (c ≠ '0') && (c :: rest).all Char.isDigit

/-- Decimal value of a digit string. -/
def charsToNat (cs : List Char) : Nat :=
  cs.foldl (fun a c => a * 10 + (c.toNat - 48)) 0

/-- One step `acc?.[key]` of the `reduce` in `getValueAtPath`, on the
JSON data model: optional chaining turns a missing (`undefined`) or
`null` accumulator into `undefined`; mapping access is key lookup;
sequence access is canonical-index lookup; every other value is not
traversable and yields `undefined`. -/
def step (acc : Option Json) (key : String) : Option Json :=
  match acc with
  | some (Json.obj kvs) => jsonLookup kvs key
  | some (Json.arr xs) =>
      if isCanonicalIndex key.data then xs.get? (charsToNat key.data) else none
  | _ => none

/-- `getValueAtPath` (src/src/utils.ts): normalize `[N]` to `.N`, split
on `.`, then fold `acc?.[key]` from the document root.  `none` is the
Absent marker (JS `undefined`).  Every operation in the body is total on
the JSON data model, so the `try/catch` of the source is inert. -/
def getValueAtPath (obj : Json) (path : String) : Option Json :=
  (splitDotAux (bracketLoop path.data none) []).foldl step (some obj)

/-! ## JSON.stringify on the data model -/

/-- Lowercase hexadecimal digit. -/
def hexDigit (n : Nat) : Char :=
  if n < 10 then Char.ofNat (48 + n) else Char.ofNat (87 + n)

/-- `JSON.stringify` escaping of one string character. -/
def escapeChar (c : Char) : List Char :=
  if c = Char.ofNat 34 then [Char.ofNat 92, Char.ofNat 34]
  else if c = Char.ofNat 92 then [Char.ofNat 92, Char.ofNat 92]
  else if c = Char.ofNat 8 then [Char.ofNat 92, 'b']
  else if c = Char.ofNat 9 then [Char.ofNat 92, 't']
  else if c = Char.ofNat 10 then [Char.ofNat 92, 'n']
  else if c = Char.ofNat 12 then [Char.ofNat 92, 'f']
  else if c = Char.ofNat 13 then [Char.ofNat 92, 'r']
  else if c.toNat < 32 then
    [Char.ofNat 92, 'u', '0', '0', hexDigit (c.toNat / 16), hexDigit (c.toNat % 16)]
  else [c]

/-- A JSON string literal: quoted and escaped. -/
def quoteString (s : String) : String :=
  String.mk (Char.ofNat 34 :: s.data.foldr (fun c acc => escapeChar c ++ acc) [Char.ofNat 34])

mutual

/-- `JSON.stringify` of a defined JSON value: mappings serialize their
pairs in insertion order, so two mappings holding the same pairs in
different order serialize differently. -/
def jsonStringify : Json → String
  | Json.null => "null"
  | Json.bool b => cond b "true" "false"
  | Json.num n => toString n
  | Json.str s => quoteString s
  | Json.arr xs => "[" ++ String.intercalate "," (stringifyElems xs) ++ "]"
  | Json.obj kvs => "\x7b" ++ String.intercalate "," (stringifyMembers kvs) ++ "\x7d"

/-- Serialized elements of a JSON sequence, in order. -/
def stringifyElems : List Json → List String
  | [] => []
  | x :: rest => jsonStringify x :: stringifyElems rest

/-- Serialized `"key":value` members of a JSON mapping, in insertion
order. -/
def stringifyMembers : List (String × Json) → List String
  | [] => []
  | (k, v) :: rest => (quoteString k ++ ":" ++ jsonStringify v) :: stringifyMembers rest

end

/-- `JSON.stringify` on a possibly-`undefined` value: JS returns the
value `undefined` (not a string) for `JSON.stringify(undefined)`. -/
def stringifyOpt : Option Json → Option String :=
  Option.map jsonStringify

/-- Interpolation of `JSON.stringify(x)` into a template literal:
`undefined` prints as the text `undefined`. -/
def stringifyMsg (v : Option Json) : String :=
  (stringifyOpt v).getD "undefined"

/-! ## Assertion engine (src/src/assertJson.ts) -/

/-- The primitive type names accepted by `toBeType`. -/
inductive PrimitiveType where
  | string | number | boolean | object | array | undefined | null
deriving BEq, DecidableEq

/-- Name of a primitive type, as interpolated into failure messages. -/
def typeName : PrimitiveType → String
  | PrimitiveType.string => "string"
  | PrimitiveType.number => "number"
  | PrimitiveType.boolean => "boolean"
  | PrimitiveType.object => "object"
  | PrimitiveType.array => "array"
  | PrimitiveType.undefined => "undefined"
  | PrimitiveType.null => "null"

/-- The classification in `toBeType`:
`value === null ? "null" : Array.isArray(value) ? "array" : typeof value`. -/
def typeOfResolved : Option Json → PrimitiveType
  | none => PrimitiveType.undefined
  | some Json.null => PrimitiveType.null
  | some (Json.arr _) => PrimitiveType.array
  | some (Json.bool _) => PrimitiveType.boolean
  | some (Json.num _) => PrimitiveType.number
  | some (Json.str _) => PrimitiveType.string
  | some (Json.obj _) => PrimitiveType.object

/-- JS truthiness `!!value` of a resolved value (falsy: `undefined`,
`null`, `false`, `0`, `""`). -/
def truthy : Option Json → Bool
  | none => false
  | some Json.null => false
  | some (Json.bool b) => b
  | some (Json.num n) => decide (n ≠ 0)
  | some (Json.str s) => decide (s ≠ "")
  | some (Json.arr _) => true
  | some (Json.obj _) => true

mutual

/-- `String(x)` coercion of a defined value, as used by `toContainValue`
on a string target.  Sequence elements are joined with commas following
`Array.prototype.toString`. -/
def jsToStringVal : Json → String
  | Json.null => "null"
  | Json.bool b => cond b "true" "false"
  | Json.num n => toString n
  | Json.str s => s
  | Json.obj _ => "[object Object]"
  | Json.arr xs => String.intercalate "," (jsToStringElems xs)

/-- Elements of `Array.prototype.join(",")`: `null` joins as the empty
string. -/
def jsToStringElems : List Json → List String
  | [] => []
  | Json.null :: rest => "" :: jsToStringElems rest
  | x :: rest => jsToStringVal x :: jsToStringElems rest

end

/-- `String(x)` coercion: `String(undefined)` is `"undefined"`. -/
def jsToString : Option Json → String
  | none => "undefined"
  | some v => jsToStringVal v

/-- `String.prototype.includes` on character lists. -/
def containsChars : List Char → List Char → Bool
  | hay, needle =>
      needle.isPrefixOf hay ||
        match hay with
        | [] => false
        | _ :: t => containsChars t needle

/-- `options` argument of `toMatchValue`. -/
structure MatchValueOptions where
  caseInsensitive : Option Bool

/-- `opts` argument of the constructor / `assertJson`. -/
structure SoftOptions where
  soft : Option Bool
  maxErrors : Option Nat

/-- A JS `Error`: only its message is observable here. -/
structure JsError where
  message : String

/-- The mutable store backing the `errors` arrays: one slot per
allocated array, addressed by index. -/
abbrev Heap := List (List JsError)

/-- The fields of a `JsonAssertion` object.  `errorsRef` is the heap
address of `this.errors`; sharing that address models the aliasing the
`not` getter sets up in soft mode. -/
structure JsonAssertion where
  target : Json
  negated : Bool
  soft : Bool
  errorsRef : Nat
  maxErrors : Option Nat

/-- The constructor of `JsonAssertion`: field initializers allocate a
fresh empty `errors` array; then `if (opts?.soft) this.soft = true`,
`if (this.soft && sharedErrors) this.errors = sharedErrors`, and
`if (this.soft) this.maxErrors = sharedMaxErrors ?? opts?.maxErrors`. -/
def JsonAssertion.make (target : Json) (opts : Option SoftOptions)
    (sharedErrors : Option Nat) (sharedMaxErrors : Option Nat) (h : Heap) :
    JsonAssertion × Heap :=
  let fresh := h.length
  let soft := (opts.bind SoftOptions.soft).getD false
  let ref :=
    if soft then
      match sharedErrors with
      | some r => r
      | none => fresh
    else fresh
  let me :=
    if soft then
      match sharedMaxErrors with
      | some m => some m
      | none => opts.bind SoftOptions.maxErrors
    else none
  ({ target := target, negated := false, soft := soft, errorsRef := ref,
     maxErrors := me }, h ++ [[]])

/-- The `not` getter: a clone constructed over the same target, sharing
the error array and capacity exactly when in soft mode, with the negation
flag inverted. -/
def JsonAssertion.not (a : JsonAssertion) (h : Heap) : JsonAssertion × Heap :=
  let clone := JsonAssertion.make a.target
    (some { soft := some a.soft, maxErrors := a.maxErrors })
    (if a.soft then some a.errorsRef else none)
    (if a.soft then a.maxErrors else none) h
  ({ clone.1 with negated := !a.negated }, clone.2)

/-- `getErrors()`: a snapshot of the current error array (lists are
values here, so the copy `[...this.errors]` is the list itself). -/
def JsonAssertion.getErrors (a : JsonAssertion) (h : Heap) : List JsError :=
  (h.get? a.errorsRef).getD []

/-- Append to the error array at address `r`. -/
def pushError (h : Heap) (r : Nat) (e : JsError) : Heap :=
  h.set r (((h.get? r).getD []) ++ [e])

/-- Outcome of a method call on the engine: normal return of the
receiver, or a thrown exception.  Both carry the heap at that moment. -/
inductive COut where
  | ret (a : JsonAssertion) (h : Heap)
  | thrown (e : JsError) (h : Heap)

/-- The capacity-exceeded message, which interpolates the configured
maximum. -/
def capacityMessage (m : Nat) : String :=
  "Maximum number of errors (" ++ toString m ++
    ") reached in soft mode. Further assertions throw immediately."

/-- `handleError`: in soft mode, throw the capacity-exceeded error when
the recorded count has reached `maxErrors` (without appending), else
append and return `this`; in strict mode, throw the failure itself. -/
def handleError (a : JsonAssertion) (err : JsError) (h : Heap) : COut :=
  if a.soft then
    match a.maxErrors with
    | some m =>
        if m ≤ (a.getErrors h).length then
          COut.thrown (JsError.mk (capacityMessage m)) h
        else COut.ret a (pushError h a.errorsRef err)
    | none => COut.ret a (pushError h a.errorsRef err)
  else COut.thrown err h

/-- A single-quote character as a string, for building messages. -/
def squote : String := String.mk [Char.ofNat 39]

/-- `this.negated ? "not " : ""`. -/
def negMark (negated : Bool) : String := cond negated "not " ""

def haveKeyMsg (path : String) (negated : Bool) : String :=
  "Expected key " ++ squote ++ path ++ squote ++ " " ++ negMark negated ++ "to exist"

def beTypeMsg (path : String) (negated : Bool) (t actual : PrimitiveType) : String :=
  "Expected " ++ squote ++ path ++ squote ++ " " ++ negMark negated ++ "to be type " ++
    squote ++ typeName t ++ squote ++ ", but got " ++ squote ++ typeName actual ++ squote

def beDefinedMsg (path : String) (negated : Bool) : String :=
  "Expected " ++ squote ++ path ++ squote ++ " " ++ negMark negated ++ "to be defined"

def beNullMsg (path : String) (negated : Bool) : String :=
  "Expected " ++ squote ++ path ++ squote ++ " " ++ negMark negated ++ "to be null"

def beTruthyMsg (path : String) (negated : Bool) : String :=
  "Expected " ++ squote ++ path ++ squote ++ " " ++ negMark negated ++ "to be truthy"

def beFalsyMsg (path : String) (negated : Bool) : String :=
  "Expected " ++ squote ++ path ++ squote ++ " " ++ negMark negated ++ "to be falsy"

def matchValueMsg (path : String) (negated : Bool) (expected value : Option Json)
    (ci : Bool) : String :=
  "Expected value at " ++ squote ++ path ++ squote ++ " " ++ negMark negated ++
    "to equal " ++ stringifyMsg expected ++ (cond ci " (case insensitive)" "") ++
    ", but got " ++ stringifyMsg value

def containValueMsg (path : String) (negated : Bool) (expected value : Option Json) : String :=
  "Expected value at " ++ squote ++ path ++ squote ++ " " ++ negMark negated ++
    "to contain " ++ stringifyMsg expected ++ ", but got " ++ stringifyMsg value

def greaterThanMsg (path : String) (negated : Bool) (num : Int) (value : Option Json) : String :=
  "Expected value at " ++ squote ++ path ++ squote ++ " " ++ negMark negated ++
    "to be greater than " ++ toString num ++ ", but got " ++ stringifyMsg value

def lessThanMsg (path : String) (negated : Bool) (num : Int) (value : Option Json) : String :=
  "Expected value at " ++ squote ++ path ++ squote ++ " " ++ negMark negated ++
    "to be less than " ++ toString num ++ ", but got " ++ stringifyMsg value

/-- `JSON.stringify` of the candidates array of `toBeOneOf`: an
`undefined` element serializes as `null` inside an array. -/
def stringifyCandidates (values : List (Option Json)) : String :=
  "[" ++ String.intercalate "," (values.map fun v => (stringifyOpt v).getD "null") ++ "]"

def oneOfMsg (path : String) (negated : Bool) (values : List (Option Json))
    (value : Option Json) : String :=
  "Expected value at " ++ squote ++ path ++ squote ++ " " ++ negMark negated ++
    "to be one of " ++ stringifyCandidates values ++ ", but got " ++ stringifyMsg value

def satisfyMsg (path : String) (negated : Bool) : String :=
  "Expected " ++ squote ++ path ++ squote ++ " " ++ negMark negated ++ "to satisfy predicate."

/-- `toHaveKey(path)`: the value at the path is not `undefined`. -/
def JsonAssertion.toHaveKey (a : JsonAssertion) (path : String) (h : Heap) : COut :=
  let value := getValueAtPath a.target path
  let ex := value.isSome
  if ex = a.negated then handleError a (JsError.mk (haveKeyMsg path a.negated)) h
  else COut.ret a h

/-- `toBeType(path, type)`: the classified type of the resolved value
equals the given type. -/
def JsonAssertion.toBeType (a : JsonAssertion) (path : String) (t : PrimitiveType)
    (h : Heap) : COut :=
  let value := getValueAtPath a.target path
  let actualType := typeOfResolved value
  let m := actualType == t
  if m = a.negated then
    handleError a (JsError.mk (beTypeMsg path a.negated t actualType)) h
  else COut.ret a h

/-- `toBeDefined(path)`: the resolved value is not `undefined`. -/
def JsonAssertion.toBeDefined (a : JsonAssertion) (path : String) (h : Heap) : COut :=
  let value := getValueAtPath a.target path
  let isDefined := value.isSome
  if isDefined = a.negated then
    handleError a (JsError.mk (beDefinedMsg path a.negated)) h
  else COut.ret a h

/-- `toBeNull(path)`: the resolved value is exactly `null`. -/
def JsonAssertion.toBeNull (a : JsonAssertion) (path : String) (h : Heap) : COut :=
  let value := getValueAtPath a.target path
  let isNull :=
    match value with
    | some Json.null => true
    | _ => false
  if isNull = a.negated then
    handleError a (JsError.mk (beNullMsg path a.negated)) h
  else COut.ret a h

/-- `toBeTruthy(path)`: `!!value`. -/
def JsonAssertion.toBeTruthy (a : JsonAssertion) (path : String) (h : Heap) : COut :=
  let value := getValueAtPath a.target path
  let isTruthy := truthy value
  if isTruthy = a.negated then
    handleError a (JsError.mk (beTruthyMsg path a.negated)) h
  else COut.ret a h

/-- `toBeFalsy(path)`: `!value`. -/
def JsonAssertion.toBeFalsy (a : JsonAssertion) (path : String) (h : Heap) : COut :=
  let value := getValueAtPath a.target path
  let isFalsy := !truthy value
  if isFalsy = a.negated then
    handleError a (JsError.mk (beFalsyMsg path a.negated)) h
  else COut.ret a h

/-- The comparison performed by `toMatchValue`: lower-cased string
equality when `caseInsensitive` is set and both sides are strings,
otherwise `JSON.stringify(value) === JSON.stringify(expected)`. -/
def matchValueCompare (ci : Bool) (value expected : Option Json) : Bool :=
  match ci, value, expected with
  | true, some (Json.str s), some (Json.str t) => s.toLower == t.toLower
  | _, _, _ => stringifyOpt value == stringifyOpt expected

/-- `toMatchValue(path, expected, options?)`. -/
def JsonAssertion.toMatchValue (a : JsonAssertion) (path : String)
    (expected : Option Json) (options : Option MatchValueOptions) (h : Heap) : COut :=
  let value := getValueAtPath a.target path
  let ci := (options.bind MatchValueOptions.caseInsensitive).getD false
  let m := matchValueCompare ci value expected
  if m = a.negated then
    handleError a (JsError.mk (matchValueMsg path a.negated expected value ci)) h
  else COut.ret a h

/-- The containment test of `toContainValue`: deep-equal membership for
sequences, substring for strings, `false` otherwise. -/
def containsValueTest (value expected : Option Json) : Bool :=
  match value with
  | some (Json.arr xs) =>
      xs.any fun v => stringifyOpt (some v) == stringifyOpt expected
  | some (Json.str s) => containsChars s.data (jsToString expected).data
  | _ => false

/-- `toContainValue(path, expected)`. -/
def JsonAssertion.toContainValue (a : JsonAssertion) (path : String)
    (expected : Option Json) (h : Heap) : COut :=
  let value := getValueAtPath a.target path
  let contains := containsValueTest value expected
  if contains = a.negated then
    handleError a (JsError.mk (containValueMsg path a.negated expected value)) h
  else COut.ret a h

/-- `toBeGreaterThan(path, num)`: numeric and strictly greater. -/
def JsonAssertion.toBeGreaterThan (a : JsonAssertion) (path : String) (num : Int)
    (h : Heap) : COut :=
  let value := getValueAtPath a.target path
  let isGreater :=
    match value with
    | some (Json.num n) => decide (num < n)
    | _ => false
  if isGreater = a.negated then
    handleError a (JsError.mk (greaterThanMsg path a.negated num value)) h
  else COut.ret a h

/-- `toBeLessThan(path, num)`: numeric and strictly less. -/
def JsonAssertion.toBeLessThan (a : JsonAssertion) (path : String) (num : Int)
    (h : Heap) : COut :=
  let value := getValueAtPath a.target path
  let isLess :=
    match value with
    | some (Json.num n) => decide (n < num)
    | _ => false
  if isLess = a.negated then
    handleError a (JsError.mk (lessThanMsg path a.negated num value)) h
  else COut.ret a h

/-- `toBeOneOf(path, values)`: some candidate serializes like the
resolved value. -/
def JsonAssertion.toBeOneOf (a : JsonAssertion) (path : String)
    (values : List (Option Json)) (h : Heap) : COut :=
  let value := getValueAtPath a.target path
  let found := values.any fun v => stringifyOpt v == stringifyOpt value
  if found = a.negated then
    handleError a (JsError.mk (oneOfMsg path a.negated values value)) h
  else COut.ret a h

/-- `toSatisfy(path, predicate)`: a caller-supplied predicate, modelled
as possibly raising (`Except.error`).  The source wraps the call in
`try/catch` and rethrows, so a raise propagates unchanged and is never
handed to `handleError`. -/
def JsonAssertion.toSatisfy (a : JsonAssertion) (path : String)
    (predicate : Option Json → Except JsError Bool) (h : Heap) : COut :=
  let value := getValueAtPath a.target path
  match predicate value with
  | Except.error e => COut.thrown e h
  | Except.ok result =>
      if result = a.negated then
        handleError a (JsError.mk (satisfyMsg path a.negated)) h
      else COut.ret a h

/-- `assertJson(data, opts?)`. -/
def assertJson (data : Json) (opts : Option SoftOptions) (h : Heap) :
    JsonAssertion × Heap :=
  JsonAssertion.make data opts none none h

/-- `assertJsonSoft(data, opts?)`: forces `soft: true`, keeping the
caller's `maxErrors`. -/
def assertJsonSoft (data : Json) (maxErrors : Option Nat) (h : Heap) :
    JsonAssertion × Heap :=
  JsonAssertion.make data (some { soft := some true, maxErrors := maxErrors }) none none h

/-! ## Chains of calls -/

/-- One public check invocation with fixed arguments. -/
inductive Check where
  | toHaveKey (path : String)
  | toBeType (path : String) (t : PrimitiveType)
  | toBeDefined (path : String)
  | toBeNull (path : String)
  | toBeTruthy (path : String)
  | toBeFalsy (path : String)
  | toMatchValue (path : String) (expected : Option Json) (options : Option MatchValueOptions)
  | toContainValue (path : String) (expected : Option Json)
  | toBeGreaterThan (path : String) (num : Int)
  | toBeLessThan (path : String) (num : Int)
  | toBeOneOf (path : String) (values : List (Option Json))
  | toSatisfy (path : String) (predicate : Option Json → Except JsError Bool)

/-- Dispatch a check invocation to the corresponding method. -/
def runCheck (a : JsonAssertion) (c : Check) (h : Heap) : COut :=
  match c with
  | Check.toHaveKey path => a.toHaveKey path h
  | Check.toBeType path t => a.toBeType path t h
  | Check.toBeDefined path => a.toBeDefined path h
  | Check.toBeNull path => a.toBeNull path h
  | Check.toBeTruthy path => a.toBeTruthy path h
  | Check.toBeFalsy path => a.toBeFalsy path h
  | Check.toMatchValue path expected options => a.toMatchValue path expected options h
  | Check.toContainValue path expected => a.toContainValue path expected h
  | Check.toBeGreaterThan path num => a.toBeGreaterThan path num h
  | Check.toBeLessThan path num => a.toBeLessThan path num h
  | Check.toBeOneOf path values => a.toBeOneOf path values h
  | Check.toSatisfy path predicate => a.toSatisfy path predicate h

/-- An element of a fluent chain: a check call, or an access of the
`not` getter. -/
inductive ChainItem where
  | check (c : Check)
  | neg

/-- Run a fluent chain: each call's receiver is the value the previous
call returned, and a thrown exception stops the chain. -/
def runItems (a : JsonAssertion) (items : List ChainItem) (h : Heap) : COut :=
  match items with
  | [] => COut.ret a h
  | ChainItem.neg :: rest =>
      let p := a.not h
      runItems p.1 rest p.2
  | ChainItem.check c :: rest =>
      match runCheck a c h with
      | COut.ret a' h' => runItems a' rest h'
      | COut.thrown e h' => COut.thrown e h'

/-! ## Analysis layer: the shared failure-reporting shape -/

/-- The raw predicate (`passed` before negation) each check computes, by
case on the check kind; for `toSatisfy` this is the caller's predicate,
which may raise. -/
def checkRaw (target : Json) (c : Check) : Except JsError Bool :=
  match c with
  | Check.toHaveKey p => Except.ok (getValueAtPath target p).isSome
  | Check.toBeType p t => Except.ok (typeOfResolved (getValueAtPath target p) == t)
  | Check.toBeDefined p => Except.ok (getValueAtPath target p).isSome
  | Check.toBeNull p =>
      Except.ok (match getValueAtPath target p with
        | some Json.null => true
        | _ => false)
  | Check.toBeTruthy p => Except.ok (truthy (getValueAtPath target p))
  | Check.toBeFalsy p => Except.ok (!truthy (getValueAtPath target p))
  | Check.toMatchValue p e o =>
      Except.ok (matchValueCompare ((o.bind MatchValueOptions.caseInsensitive).getD false)
        (getValueAtPath target p) e)
  | Check.toContainValue p e => Except.ok (containsValueTest (getValueAtPath target p) e)
  | Check.toBeGreaterThan p n =>
      Except.ok (match getValueAtPath target p with
        | some (Json.num v) => decide (n < v)
        | _ => false)
  | Check.toBeLessThan p n =>
      Except.ok (match getValueAtPath target p with
        | some (Json.num v) => decide (v < n)
        | _ => false)
  | Check.toBeOneOf p vs =>
      Except.ok (vs.any fun v => stringifyOpt v == stringifyOpt (getValueAtPath target p))
  | Check.toSatisfy p predicate => predicate (getValueAtPath target p)

/-- The failure message each check hands to `handleError`. -/
def checkMsg (target : Json) (c : Check) (negated : Bool) : String :=
  match c with
  | Check.toHaveKey p => haveKeyMsg p negated
  | Check.toBeType p t => beTypeMsg p negated t (typeOfResolved (getValueAtPath target p))
  | Check.toBeDefined p => beDefinedMsg p negated
  | Check.toBeNull p => beNullMsg p negated
  | Check.toBeTruthy p => beTruthyMsg p negated
  | Check.toBeFalsy p => beFalsyMsg p negated
  | Check.toMatchValue p e o =>
      matchValueMsg p negated e (getValueAtPath target p)
        ((o.bind MatchValueOptions.caseInsensitive).getD false)
  | Check.toContainValue p e => containValueMsg p negated e (getValueAtPath target p)
  | Check.toBeGreaterThan p n => greaterThanMsg p negated n (getValueAtPath target p)
  | Check.toBeLessThan p n => lessThanMsg p negated n (getValueAtPath target p)
  | Check.toBeOneOf p vs => oneOfMsg p negated vs (getValueAtPath target p)
  | Check.toSatisfy p _ => satisfyMsg p negated

/-- Every check method follows the shared policy: compute the raw
predicate, propagate a raise from it unchanged, otherwise report through
`handleError` exactly when the raw outcome equals the negation flag. -/
theorem runCheck_eq (a : JsonAssertion) (c : Check) (h : Heap) :
    runCheck a c h =
      match checkRaw a.target c with
      | Except.error e => COut.thrown e h
      | Except.ok p =>
          if p = a.negated then
            handleError a (JsError.mk (checkMsg a.target c a.negated)) h
          else COut.ret a h := by
  cases c <;> rfl

/-- Observable outcome of a call: `none` for a normal return, the raised
error otherwise. -/
def outcome : COut → Option JsError
  | COut.ret _ _ => none
  | COut.thrown e _ => some e

/-- The slot read by `getErrors` is unchanged when two fresh empty
arrays are appended to the heap (allocations performed by clones). -/
theorem get_pad (h : Heap) (r : Nat) :
    (((h ++ [[], []]).get? r).getD []) = ((h.get? r).getD []) := by
  rcases Nat.lt_or_ge r h.length with hlt | hge
  · rw [List.get?_append hlt]
  · rw [List.get?_eq_none.mpr hge, List.get?_append_right hge]
    rcases hk : r - h.length with _ | k
    · rfl
    · rcases k with _ | k2 <;> rfl

/-- `get_pad` in `getElem?` form, as `simp` normalizes list lookups. -/
theorem getElem_pad (h : Heap) (r : Nat) :
    (((h ++ [[], []])[r]?).getD []) = ((h[r]?).getD []) := by
  have h1 := get_pad h r
  simpa [List.get?_eq_getElem?] using h1

/-- Explicit description of the clone produced by the `not` getter. -/
theorem not_spec (a : JsonAssertion) (h : Heap) :
    a.not h =
      ({ target := a.target, negated := !a.negated, soft := a.soft,
         errorsRef := if a.soft then a.errorsRef else h.length,
         maxErrors := if a.soft then a.maxErrors else none }, h ++ [[]]) := by
  unfold JsonAssertion.not JsonAssertion.make
  cases ha : a.soft <;> cases hm : a.maxErrors <;> simp [ha, hm]

/-- `handleError` in strict mode throws the failure unchanged, leaving
the heap as it is. -/
theorem handleError_strict (a : JsonAssertion) (err : JsError) (h : Heap)
    (hsoft : a.soft = false) : handleError a err h = COut.thrown err h := by
  unfold handleError
  rw [hsoft]
  simp

/-- In strict mode, a check either returns the receiver unchanged or
throws, never touching the heap. -/
theorem runCheck_strict (a : JsonAssertion) (c : Check) (h : Heap)
    (hsoft : a.soft = false) :
    runCheck a c h = COut.ret a h ∨ ∃ e, runCheck a c h = COut.thrown e h := by
  cases hr : checkRaw a.target c with
  | error e =>
      refine Or.inr ⟨e, ?_⟩
      rw [runCheck_eq, hr]
  | ok p =>
      by_cases hp : p = a.negated
      · refine Or.inr ⟨JsError.mk (checkMsg a.target c a.negated), ?_⟩
        rw [runCheck_eq, hr]
        dsimp only
        rw [if_pos hp, handleError_strict a _ h hsoft]
      · refine Or.inl ?_
        rw [runCheck_eq, hr]
        dsimp only
        rw [if_neg hp]

/-- In strict mode, a chain of checks that returns normally returns the
original receiver over the original heap. -/
theorem runItems_strict_ret (a : JsonAssertion) (h : Heap) (hsoft : a.soft = false) :
    ∀ (cs : List Check) (a' : JsonAssertion) (h' : Heap),
      runItems a (cs.map ChainItem.check) h = COut.ret a' h' → a' = a ∧ h' = h := by
  intro cs
  induction cs with
  | nil =>
      intro a' h' hrun
      cases hrun
      exact ⟨rfl, rfl⟩
  | cons c rest ih =>
      intro a' h' hrun
      rcases runCheck_strict a c h hsoft with hok | ⟨e, hth⟩
      · rw [List.map_cons] at hrun
        unfold runItems at hrun
        rw [hok] at hrun
        exact ih a' h' hrun
      · rw [List.map_cons] at hrun
        unfold runItems at hrun
        rw [hth] at hrun
        cases hrun

/-- Closed form of the observable outcome of one check: a raise from a
caller predicate propagates; a failing check in soft mode either records
silently or raises the capacity error; in strict mode it raises its own
failure. -/
theorem outcome_formula (a : JsonAssertion) (c : Check) (h : Heap) :
    outcome (runCheck a c h) =
      match checkRaw a.target c with
      | Except.error e => some e
      | Except.ok p =>
          if p = a.negated then
            (if a.soft then
              match a.maxErrors with
              | some m =>
                  if m ≤ (a.getErrors h).length then
                    some (JsError.mk (capacityMessage m))
                  else none
              | none => none
             else some (JsError.mk (checkMsg a.target c a.negated)))
          else none := by
  rw [runCheck_eq]
  cases hr : checkRaw a.target c with
  | error e => rfl
  | ok p =>
      dsimp only
      by_cases hp : p = a.negated
      · rw [if_pos hp, if_pos hp]
        unfold handleError
        split
        · cases hm : a.maxErrors with
          | none => rfl
          | some m =>
              dsimp only
              split
              · rfl
              · rfl
        · rfl
      · rw [if_neg hp, if_neg hp]
        rfl

/-! ## Substructure relation for the resolver's range -/

/-- `SubJson v root`: `v` occurs inside `root` (reflexively, through
sequence elements and mapping values). -/
inductive SubJson : Json → Json → Prop where
  | refl (j : Json) : SubJson j j
  | inArr (x : Json) (xs : List Json) (root : Json) :
      x ∈ xs → SubJson (Json.arr xs) root → SubJson x root
  | inObj (k : String) (v : Json) (kvs : List (String × Json)) (root : Json) :
      (k, v) ∈ kvs → SubJson (Json.obj kvs) root → SubJson v root

/-- A successful association-list lookup finds a member. -/
theorem jsonLookup_mem (kvs : List (String × Json)) (key : String) (v : Json)
    (hl : jsonLookup kvs key = some v) : (key, v) ∈ kvs := by
  induction kvs with
  | nil => cases hl
  | cons kv rest ih =>
      rcases kv with ⟨k, w⟩
      unfold jsonLookup at hl
      by_cases hk : k = key
      · rw [if_pos hk] at hl
        cases hl
        subst hk
        exact List.mem_cons_self _ _
      · rw [if_neg hk] at hl
        exact List.mem_cons_of_mem _ (ih hl)

/-- One resolver step stays inside the document. -/
theorem step_sub (root v v' : Json) (key : String) (hsub : SubJson v root)
    (hst : step (some v) key = some v') : SubJson v' root := by
  cases v with
  | obj kvs =>
      exact SubJson.inObj key v' kvs root (jsonLookup_mem kvs key v' hst) hsub
  | arr xs =>
      have hst' : (if isCanonicalIndex key.data then xs.get? (charsToNat key.data)
          else none) = some v' := hst
      by_cases hc : isCanonicalIndex key.data = true
      · rw [if_pos hc] at hst'
        exact SubJson.inArr v' xs root (List.get?_mem hst') hsub
      · rw [if_neg hc] at hst'
        cases hst'
  | null => cases hst
  | bool b => cases hst
  | num n => cases hst
  | str s => cases hst

/-- The resolver's fold yields only Absent or values inside the
document. -/
theorem foldl_step_sub (root : Json) (keys : List String) :
    ∀ (acc : Option Json), (∀ w, acc = some w → SubJson w root) →
      ∀ v, keys.foldl step acc = some v → SubJson v root := by
  induction keys with
  | nil =>
      intro acc hacc v hv
      exact hacc v hv
  | cons k rest ih =>
      intro acc hacc v hv
      rw [List.foldl_cons] at hv
      refine ih (step acc k) ?_ v hv
      intro w hw
      cases acc with
      | none => cases hw
      | some u => exact step_sub root u w k (hacc u rfl) hw

/-- `toMatchValue` without options compares serializations: the
case-insensitive branch is off. -/
theorem toMatchValue_reduce (a : JsonAssertion) (path : String)
    (expected : Option Json) (h : Heap) :
    JsonAssertion.toMatchValue a path expected none h =
      (if (stringifyOpt (getValueAtPath a.target path) == stringifyOpt expected)
          = a.negated then
        handleError a (JsError.mk (matchValueMsg path a.negated expected
          (getValueAtPath a.target path) false)) h
       else COut.ret a h) := by
  unfold JsonAssertion.toMatchValue
  dsimp only [Option.none_bind, Option.getD_none]
  rfl

/-- `handleError` can only return normally by appending the failure to
the shared error array of a soft-mode view. -/
theorem handleError_ret_push (x : JsonAssertion) (err : JsError) (h₂ : Heap)
    (b₂ : JsonAssertion) (h₃ : Heap) (hx : x.soft = true)
    (hhe : handleError x err h₂ = COut.ret b₂ h₃) :
    h₃ = pushError h₂ x.errorsRef err := by
  unfold handleError at hhe
  rw [hx] at hhe
  rw [if_pos rfl] at hhe
  cases hm : x.maxErrors with
  | none =>
      rw [hm] at hhe
      cases hhe
      rfl
  | some m =>
      rw [hm] at hhe
      dsimp only at hhe
      split at hhe
      · cases hhe
      · cases hhe
        rfl

/-- Reading back the slot just appended to. -/
theorem getErrors_push (h₂ : Heap) (r : Nat) (err : JsError) (hr : r < h₂.length) :
    (((pushError h₂ r err).get? r).getD []) = (((h₂.get? r).getD []) ++ [err]) := by
  unfold pushError
  rw [List.get?_set_eq_of_lt _ hr]
  rfl

/-- C4: Path resolution is total over the JSON data model and never
escapes the document: for every document and every path string the
resolver yields either the Absent marker or a value occurring inside the
document.  (`getValueAtPath` is a total function of the embedding, so no
exception can escape; the source's `try/catch` guards operations that
cannot fault on this data model.) -/
theorem C4_resolver_total_and_in_document (root : Json) (path : String) :
    getValueAtPath root path = none ∨
      ∃ v, getValueAtPath root path = some v ∧ SubJson v root := by
  cases hres : getValueAtPath root path with
  | none => exact Or.inl rfl
  | some v =>
      refine Or.inr ⟨v, rfl, ?_⟩
      refine foldl_step_sub root (splitDotAux (bracketLoop path.data none) [])
        (some root) ?_ v hres
      intro w hw
      cases hw
      exact SubJson.refl root

/-- C8: Bracketed numeric indices are normalized to ordinary dotted
steps before resolution: `arr[0].id` resolves exactly as stepping into
"arr", then "0", then "id", which is also how `arr.0.id` resolves. -/
theorem C8_bracket_normalization (doc : Json) :
    getValueAtPath doc "arr[0].id" = List.foldl step (some doc) ["arr", "0", "id"] ∧
    getValueAtPath doc "arr.0.id" = List.foldl step (some doc) ["arr", "0", "id"] :=
  ⟨rfl, rfl⟩

/-- C1: The claim says the negation flag applies to exactly one chained
check and that after `a.not.toHaveKey(p)` a further chained
`.toHaveKey(q)` runs unnegated.  The code contradicts this: every check
method returns `this`, so the clone produced by the `not` getter keeps
`negated = true` for all subsequent chained calls.  On the document
`{foo: 1}` in strict mode: (1) the chain
`.not.toHaveKey("bar").toHaveKey("foo")` throws the negated failure
"not to exist" from its second check, although `"foo"` exists; (2) that
second check, run unnegated as the claim prescribes, passes; (3) the
view returned by the first (passing) chained check still carries
`negated = true`. -/
theorem C1_negation_persists_on_chained_view :
    runItems (assertJson (Json.obj [("foo", Json.num 1)]) none []).1
      [ChainItem.neg, ChainItem.check (Check.toHaveKey "bar"),
       ChainItem.check (Check.toHaveKey "foo")]
      (assertJson (Json.obj [("foo", Json.num 1)]) none []).2
      = COut.thrown (JsError.mk (haveKeyMsg "foo" true)) [[], []] ∧
    runCheck (assertJson (Json.obj [("foo", Json.num 1)]) none []).1
      (Check.toHaveKey "foo")
      (assertJson (Json.obj [("foo", Json.num 1)]) none []).2
      = COut.ret (assertJson (Json.obj [("foo", Json.num 1)]) none []).1 [[]] ∧
    (match runCheck ((assertJson (Json.obj [("foo", Json.num 1)]) none []).1.not [[]]).1
        (Check.toHaveKey "bar")
        ((assertJson (Json.obj [("foo", Json.num 1)]) none []).1.not [[]]).2 with
     | COut.ret b _ => b.negated
     | COut.thrown _ _ => false) = true :=
  ⟨rfl, rfl, rfl⟩

/-- C2 (counterexample): two mappings holding the same key-value pairs
in different insertion order are claimed deep-equal, so
`toMatchValue("a", {y:2, x:1})` on the document `{a: {x:1, y:2}}` is
claimed to pass; the code compares `JSON.stringify` outputs, which
differ, and the unnegated strict check throws. -/
theorem C2_counterexample_key_order :
    JsonAssertion.toMatchValue
      (assertJson (Json.obj [("a", Json.obj [("x", Json.num 1), ("y", Json.num 2)])])
        none []).1
      "a" (some (Json.obj [("y", Json.num 2), ("x", Json.num 1)])) none [[]]
      = COut.thrown (JsError.mk (matchValueMsg "a" false
          (some (Json.obj [("y", Json.num 2), ("x", Json.num 1)]))
          (some (Json.obj [("x", Json.num 1), ("y", Json.num 2)])) false)) [[]] :=
  rfl

/-- C2 (amended): without `caseInsensitive`, `toMatchValue` passes — on
a strict unnegated view — iff `JSON.stringify` of the resolved value
equals `JSON.stringify` of the expected value.  This comparison is
order-sensitive for sequences and also key-insertion-order-sensitive for
mappings (serialize-then-compare, not a recursive structural
comparison). -/
theorem C2_amended_toMatchValue_stringify (a : JsonAssertion) (path : String)
    (expected : Option Json) (h : Heap) (hsoft : a.soft = false)
    (hneg : a.negated = false) :
    JsonAssertion.toMatchValue a path expected none h = COut.ret a h ↔
      stringifyOpt (getValueAtPath a.target path) = stringifyOpt expected := by
  rw [toMatchValue_reduce, hneg]
  cases hb : (stringifyOpt (getValueAtPath a.target path) == stringifyOpt expected)
  · rw [if_pos rfl, handleError_strict a _ h hsoft]
    constructor
    · intro hx
      cases hx
    · intro hx
      rw [hx] at hb
      simp at hb
  · rw [if_neg (by decide)]
    constructor
    · intro _
      exact eq_of_beq hb
    · intro _
      rfl

/-- Witness: on the document `{foo: 1}` the amended biconditional holds
concretely in its passing direction. -/
theorem C2_amended_witness :
    JsonAssertion.toMatchValue (assertJson (Json.obj [("foo", Json.num 1)]) none []).1
      "foo" (some (Json.num 1)) none [[]]
      = COut.ret (assertJson (Json.obj [("foo", Json.num 1)]) none []).1 [[]] :=
  (C2_amended_toMatchValue_stringify
    (assertJson (Json.obj [("foo", Json.num 1)]) none []).1
    "foo" (some (Json.num 1)) [[]] rfl rfl).mpr rfl

/-- C3: In soft mode with `maxErrors = N`, once `N` failures are
recorded, any further failing check (raw predicate computed, and equal
to the negation flag) raises the capacity-exceeded error — whose message
interpolates the configured maximum — over the unchanged heap, so the
triggering failure is not appended and the recorded count stays `N`. -/
theorem C3_capacity_exceeded (a : JsonAssertion) (h : Heap) (m : Nat) (c : Check)
    (p : Bool) (hsoft : a.soft = true) (hmax : a.maxErrors = some m)
    (hcount : (a.getErrors h).length = m)
    (hraw : checkRaw a.target c = Except.ok p) (hfail : p = a.negated) :
    runCheck a c h = COut.thrown (JsError.mk (capacityMessage m)) h ∧
    (∃ pre post, capacityMessage m = pre ++ toString m ++ post) ∧
    (a.getErrors h).length = m := by
  refine ⟨?_, ?_, hcount⟩
  · rw [runCheck_eq, hraw]
    dsimp only
    rw [if_pos hfail]
    unfold handleError
    rw [hsoft, if_pos rfl, hmax]
    dsimp only
    rw [hcount, if_pos (Nat.le_refl m)]
  · exact ⟨"Maximum number of errors (",
      ") reached in soft mode. Further assertions throw immediately.", rfl⟩

/-- Witness for C3: a soft session on `{foo: 1}` with `maxErrors = 1`
and one recorded failure; the failing `toHaveKey("bar")` raises the
capacity error and the count stays 1. -/
theorem C3_witness :
    runCheck (assertJsonSoft (Json.obj [("foo", Json.num 1)]) (some 1) []).1
      (Check.toHaveKey "bar") [[JsError.mk (haveKeyMsg "a" false)]]
      = COut.thrown (JsError.mk (capacityMessage 1))
          [[JsError.mk (haveKeyMsg "a" false)]] ∧
    (∃ pre post, capacityMessage 1 = pre ++ toString 1 ++ post) ∧
    ((assertJsonSoft (Json.obj [("foo", Json.num 1)]) (some 1) []).1.getErrors
      [[JsError.mk (haveKeyMsg "a" false)]]).length = 1 :=
  C3_capacity_exceeded (assertJsonSoft (Json.obj [("foo", Json.num 1)]) (some 1) []).1
    [[JsError.mk (haveKeyMsg "a" false)]] 1 (Check.toHaveKey "bar") false
    rfl rfl rfl rfl rfl

/-- C5: In strict mode (1) a failing check — raw predicate equal to the
negation flag — raises its own failure immediately, over the unchanged
heap; (2) a check that throws makes the chain independent of any
subsequent chained calls; (3) a chain of checks that returns normally
returns the original view over the original heap, so no error is ever
recorded; (4) a freshly constructed strict session has an empty
`getErrors()`. -/
theorem C5_strict_fail_fast (a : JsonAssertion) (h : Heap) (c : Check)
    (pre post cs : List Check) (p : Bool) (e : JsError) (a' : JsonAssertion)
    (h' : Heap) (hsoft : a.soft = false) :
    (checkRaw a.target c = Except.ok p → p = a.negated →
        runCheck a c h = COut.thrown (JsError.mk (checkMsg a.target c a.negated)) h) ∧
    (runCheck a c h = COut.thrown e h →
        runItems a ((pre ++ c :: post).map ChainItem.check) h =
          runItems a ((pre ++ [c]).map ChainItem.check) h) ∧
    (runItems a (cs.map ChainItem.check) h = COut.ret a' h' →
        a' = a ∧ h' = h ∧ a.getErrors h' = a.getErrors h) ∧
    (assertJson a.target none h).1.getErrors (assertJson a.target none h).2 = [] := by
  refine ⟨?_, ?_, ?_, ?_⟩
  · intro hraw hfail
    rw [runCheck_eq, hraw]
    dsimp only
    rw [if_pos hfail]
    exact handleError_strict a _ h hsoft
  · intro hth
    induction pre with
    | nil =>
        simp only [List.nil_append, List.map_cons, List.map_nil]
        unfold runItems
        rw [hth]
    | cons q rest ih =>
        simp only [List.cons_append, List.map_cons]
        rcases runCheck_strict a q h hsoft with hok | ⟨e2, hth2⟩
        · unfold runItems
          rw [hok]
          simp only [List.map_cons] at ih
          exact ih
        · unfold runItems
          rw [hth2]
  · intro hrun
    obtain ⟨ha, hh⟩ := runItems_strict_ret a h hsoft cs a' h' hrun
    exact ⟨ha, hh, by rw [hh]⟩
  · unfold assertJson JsonAssertion.make JsonAssertion.getErrors
    dsimp only
    rw [ite_self, List.get?_concat_length]
    rfl

/-- Witness for C5: a strict session on `{foo: 1}`; the failing
`toHaveKey("bar")` throws its own failure over the unchanged heap. -/
theorem C5_witness :
    runCheck (assertJson (Json.obj [("foo", Json.num 1)]) none []).1
      (Check.toHaveKey "bar") [[]]
      = COut.thrown (JsError.mk (checkMsg
          (assertJson (Json.obj [("foo", Json.num 1)]) none []).1.target
          (Check.toHaveKey "bar")
          (assertJson (Json.obj [("foo", Json.num 1)]) none []).1.negated)) [[]] :=
  (C5_strict_fail_fast (assertJson (Json.obj [("foo", Json.num 1)]) none []).1
    [[]] (Check.toHaveKey "bar") [] [] [] false (JsError.mk "")
    (assertJson (Json.obj [("foo", Json.num 1)]) none []).1 [[]] rfl).1 rfl rfl

/-- C6: A raise from the caller-supplied predicate inside `toSatisfy`
propagates unchanged — the raised error is the predicate's own and the
heap (hence every recorded-error array) is untouched — in strict and
soft mode alike, since no hypothesis constrains the view's mode. -/
theorem C6_predicate_raise_propagates (a : JsonAssertion) (h : Heap) (path : String)
    (predicate : Option Json → Except JsError Bool) (e : JsError)
    (hraise : predicate (getValueAtPath a.target path) = Except.error e) :
    JsonAssertion.toSatisfy a path predicate h = COut.thrown e h := by
  unfold JsonAssertion.toSatisfy
  dsimp only
  rw [hraise]

/-- Witness for C6: a raising predicate on a soft session propagates its
own error and leaves the recorded errors empty. -/
theorem C6_witness :
    JsonAssertion.toSatisfy (assertJsonSoft (Json.obj [("foo", Json.num 1)]) none []).1
      "foo" (fun _ => Except.error (JsError.mk "boom")) [[]]
      = COut.thrown (JsError.mk "boom") [[]] :=
  C6_predicate_raise_propagates
    (assertJsonSoft (Json.obj [("foo", Json.num 1)]) none []).1 [[]] "foo"
    (fun _ => Except.error (JsError.mk "boom")) (JsError.mk "boom") rfl

/-- C7: Double negation is no negation: for every view, heap and check
kind with fixed arguments, running the check on `view.not.not` has the
same observable pass/fail outcome (normal return versus raised error,
including which error) as running it on the view itself. -/
theorem C7_double_negation_outcome (a : JsonAssertion) (h : Heap) (c : Check) :
    outcome (runCheck (((a.not h).1.not ((a.not h).2)).1) c
        (((a.not h).1.not ((a.not h).2)).2))
      = outcome (runCheck a c h) := by
  rw [not_spec a h]
  dsimp only
  rw [not_spec]
  dsimp only
  rw [outcome_formula, outcome_formula]
  dsimp only
  cases hs : a.soft
  · simp [hs, Bool.not_not]
  · simp [hs, Bool.not_not, JsonAssertion.getErrors, List.append_assoc, getElem_pad]

/-- C9: In soft mode, the view produced by the negation modifier shares
the session state of the current view — same document, same mode, same
capacity, and the same error array — so a failure recorded through
either view is appended, in order, to the sequence `getErrors()` returns
on the other. -/
theorem C9_not_shares_session (a : JsonAssertion) (h : Heap) (hsoft : a.soft = true) :
    ((a.not h).1.target = a.target) ∧ ((a.not h).1.soft = a.soft) ∧
    ((a.not h).1.maxErrors = a.maxErrors) ∧ ((a.not h).1.errorsRef = a.errorsRef) ∧
    (∀ (err : JsError) (h₂ : Heap) (b₂ : JsonAssertion) (h₃ : Heap),
        a.errorsRef < h₂.length →
        handleError ((a.not h).1) err h₂ = COut.ret b₂ h₃ →
        a.getErrors h₃ = a.getErrors h₂ ++ [err]) ∧
    (∀ (err : JsError) (h₂ : Heap) (a₂ : JsonAssertion) (h₃ : Heap),
        a.errorsRef < h₂.length →
        handleError a err h₂ = COut.ret a₂ h₃ →
        (a.not h).1.getErrors h₃ = (a.not h).1.getErrors h₂ ++ [err]) := by
  have hb : (a.not h).1 =
      { target := a.target, negated := !a.negated, soft := a.soft,
        errorsRef := a.errorsRef, maxErrors := a.maxErrors } := by
    rw [not_spec]
    simp [hsoft]
  refine ⟨by rw [hb], by rw [hb], by rw [hb], by rw [hb], ?_, ?_⟩
  · intro err h₂ b₂ h₃ href hhe
    rw [hb] at hhe
    have hpush : h₃ = pushError h₂ a.errorsRef err :=
      handleError_ret_push
        { target := a.target, negated := !a.negated, soft := a.soft,
          errorsRef := a.errorsRef, maxErrors := a.maxErrors }
        err h₂ b₂ h₃ hsoft hhe
    rw [hpush]
    unfold JsonAssertion.getErrors
    exact getErrors_push h₂ a.errorsRef err href
  · intro err h₂ a₂ h₃ href hhe
    have hpush : h₃ = pushError h₂ a.errorsRef err :=
      handleError_ret_push a err h₂ a₂ h₃ hsoft hhe
    rw [hb, hpush]
    unfold JsonAssertion.getErrors
    exact getErrors_push h₂ a.errorsRef err href

/-- Witness for C9: on a fresh soft session over `{foo: 1}`, a failure
recorded through the negated view (`handleError` returning normally)
appears in the original view's `getErrors()` read. -/
theorem C9_witness :
    (assertJsonSoft (Json.obj [("foo", Json.num 1)]) none []).1.getErrors
        [[JsError.mk "x"]]
      = (assertJsonSoft (Json.obj [("foo", Json.num 1)]) none []).1.getErrors [[]]
          ++ [JsError.mk "x"] :=
  (C9_not_shares_session (assertJsonSoft (Json.obj [("foo", Json.num 1)]) none []).1
    [[]] rfl).2.2.2.2.1 (JsError.mk "x") [[]]
    ((assertJsonSoft (Json.obj [("foo", Json.num 1)]) none []).1.not [[]]).1
    [[JsError.mk "x"]] (by decide) rfl

/-- C10: When a path resolves to the Absent marker, it compares equal to
an explicit `undefined` expectation at the public interface: on an
unnegated view, `toMatchValue(path, undefined)` returns normally, and
`toBeOneOf(path, values)` returns normally whenever `undefined` is among
the candidates — even though Absent is never stored in a document (the
document type has no `undefined` constructor). -/
theorem C10_absent_equals_undefined (a : JsonAssertion) (h : Heap) (path : String)
    (values : List (Option Json)) (hneg : a.negated = false)
    (hres : getValueAtPath a.target path = none) :
    JsonAssertion.toMatchValue a path none none h = COut.ret a h ∧
    (none ∈ values → JsonAssertion.toBeOneOf a path values h = COut.ret a h) := by
  constructor
  · rw [toMatchValue_reduce, hres, hneg]
    rw [if_neg (by decide)]
  · intro hmem
    unfold JsonAssertion.toBeOneOf
    dsimp only
    rw [hres, hneg]
    have hany : (values.any fun v => stringifyOpt v == stringifyOpt none) = true :=
      List.any_eq_true.mpr ⟨none, hmem, rfl⟩
    rw [hany, if_neg (by decide)]

/-- Witness for C10: on `{foo: 1}` the absent path `"bar"` matches an
`undefined` expectation and is one of `[undefined]`. -/
theorem C10_witness :
    JsonAssertion.toMatchValue (assertJson (Json.obj [("foo", Json.num 1)]) none []).1
        "bar" none none [[]]
      = COut.ret (assertJson (Json.obj [("foo", Json.num 1)]) none []).1 [[]] ∧
    JsonAssertion.toBeOneOf (assertJson (Json.obj [("foo", Json.num 1)]) none []).1
        "bar" [none] [[]]
      = COut.ret (assertJson (Json.obj [("foo", Json.num 1)]) none []).1 [[]] :=
  ⟨(C10_absent_equals_undefined (assertJson (Json.obj [("foo", Json.num 1)]) none []).1
      [[]] "bar" [none] rfl rfl).1,
   (C10_absent_equals_undefined (assertJson (Json.obj [("foo", Json.num 1)]) none []).1
      [[]] "bar" [none] rfl rfl).2 (List.Mem.head _)⟩
